import Mathlib

/-!
Verification development for the market-data retrieval orchestrator of the
kairis repository (Vercel serverless function `api/get-stock-data.js` and its
companion modules).  The JavaScript source is shallowly embedded below:

* the Polygon.io rate-limit gate (`canMakePolygonRequest`,
  `recordPolygonRequest`, `getPolygonData`) becomes explicit state passing
  over `PolygonRateLimitState`; times are milliseconds as `Nat`;
* the history cache-key derivation and weekend trading-day logic of
  `handleGetStockData` become pure functions of an epoch-day counter
  (`dayOfWeek d = (d + 4) % 7`, since day 0 = 1970-01-01 was a Thursday);
  the string key `global_history_SYMBOL_DATE` is represented by the
  structure `HistoryCacheKey`, whose components are exactly the data the
  string rendering is injective in;
* cache TTL computation of both source variants (the active
  `fetchHistoricalData` with its fixed TTLs, and the legacy variant in the
  repository that caches daily data until the 21:00 UTC market close);
* the provider adapters' record normalisation (`getPolygonData`'s mapping of
  Polygon aggregates, `getYfinanceHistoryData`'s row conversion and sort);
  prices are an opaque type parameter `P` because no claim depends on price
  arithmetic, and ISO date strings are represented by the numeric instant
  they render (full millisecond timestamp for the intraday timeframe, UTC
  day index for the daily timeframe);
* the single-request control flow of `handleGetStockData` (cache reads with
  their try/catch blocks, quote fetch, history fetch, cache writes) becomes
  a total function from an environment recording each external outcome to
  the HTTP response;
* the request-coalescing section of `handleGetStockData` (the
  `pendingRequests` map) becomes a small-step operational semantics over
  `CoalState`, with callers interleaving at their `await` suspension points.
  JavaScript resumes the reactions of a settled promise in registration
  order before any other task runs, so settlement is one atomic step that
  resumes the fetch starter first (it registered its `await` in the same
  synchronous segment that stored the promise) and then the attached
  waiters; each resumed continuation runs to its next suspension point.
  The starter's actions after deleting the registry entry touch no shared
  state, so they are compressed into the settlement step.
-/

/-! ## Rate-limit gate (`canMakePolygonRequest`, lines 26-65) -/

def polygonMaxRequests : Nat := 5

def polygonWindowMs : Nat := 60000

def polygonMinIntervalMs : Nat := 1000

/-- Mutable module state `polygonRateLimit` (lines 16-23); the constant
fields are the three definitions above. -/
structure PolygonRateLimitState where
  requestTimestamps : List Nat
  isRateLimited : Bool
  rateLimitResetTime : Nat
deriving DecidableEq, Repr

/-- Return value `{ canMake, waitTime }` of the gate check. -/
structure GateCheck where
  canMake : Bool
  waitTime : Nat
deriving DecidableEq, Repr

/-- JavaScript `Math.ceil(ms / 1000)` for a non-negative millisecond count. -/
def ceilSeconds (ms : Nat) : Nat := (ms + 999) / 1000

/-- Steps 2-5 of the gate (lines 40-64): expire timestamps outside the
window, check the window cap, then the minimum spacing.  The filtered list
is written back to the state, as the source reassigns
`polygonRateLimit.requestTimestamps`. -/
def checkWindowAndInterval (st : PolygonRateLimitState) (now : Nat) :
    PolygonRateLimitState × GateCheck :=
  let ts := st.requestTimestamps.filter (fun t => now - t < polygonWindowMs)
  let st1 := { st with requestTimestamps := ts }
  if polygonMaxRequests ≤ ts.length then
    (st1, ⟨false, ceilSeconds (ts.headD 0 + polygonWindowMs - now)⟩)
  else if 0 < ts.length ∧ now - ts.getLastD 0 < polygonMinIntervalMs then
    (st1, ⟨false, ceilSeconds (polygonMinIntervalMs - (now - ts.getLastD 0))⟩)
  else
    (st1, ⟨true, 0⟩)

/-- `canMakePolygonRequest` (lines 26-65).  The source mutates module state;
here the updated state is returned alongside the check result.  An expired
cooldown is cleared and the check falls through to the window logic; an
unexpired cooldown denies immediately without touching the timestamp list. -/
def canMakePolygonRequest (st : PolygonRateLimitState) (now : Nat) :
    PolygonRateLimitState × GateCheck :=
  if st.isRateLimited then
    if st.rateLimitResetTime < now then
      checkWindowAndInterval { st with isRateLimited := false } now
    else
      (st, ⟨false, ceilSeconds (st.rateLimitResetTime - now)⟩)
  else
    checkWindowAndInterval st now

/-- Modelled from the spec: the five-step `canProceed` algorithm of the
RateLimitGate, written directly from the spec's wording (deny with the
remaining time on an unexpired cooldown; expire old timestamps; deny with
the time until the oldest timestamp exits the window when the set is at
capacity; deny with the remaining gap when the last request is too recent;
otherwise allow). -/
def rateGateSpec (st : PolygonRateLimitState) (now : Nat) : GateCheck :=
  if st.isRateLimited ∧ now ≤ st.rateLimitResetTime then
    ⟨false, ceilSeconds (st.rateLimitResetTime - now)⟩
  else
    let ts := st.requestTimestamps.filter (fun t => now - t < polygonWindowMs)
    if polygonMaxRequests ≤ ts.length then
      ⟨false, ceilSeconds (ts.headD 0 + polygonWindowMs - now)⟩
    else if 0 < ts.length ∧ now - ts.getLastD 0 < polygonMinIntervalMs then
      ⟨false, ceilSeconds (polygonMinIntervalMs - (now - ts.getLastD 0))⟩
    else
      ⟨true, 0⟩

/-- `recordPolygonRequest` (lines 68-71): push the current timestamp. -/
def recordPolygonRequest (st : PolygonRateLimitState) (now : Nat) :
    PolygonRateLimitState :=
  { st with requestTimestamps := st.requestTimestamps ++ [now] }

/-! ## Polygon adapter (`getPolygonData`, lines 74-175) -/

/-- One aggregate item of a Polygon response (`item.t`, `item.o`, `item.h`,
`item.l`, `item.c`, `item.v`); `t` is a millisecond timestamp, `v` may be
absent (the source writes `item.v || 0`). -/
structure PolygonAgg (P : Type) where
  t : Nat
  o : P
  h : P
  l : P
  c : P
  v : Option Nat
deriving DecidableEq, Repr

/-- Canonical history record produced by every adapter.  `date` is the
numeric instant the source's date string renders: the full millisecond
timestamp for the intraday (5M) timeframe, the UTC day index for daily. -/
structure HistoryRecord (P : Type) where
  date : Nat
  open_ : P
  high : P
  low : P
  close : P
  volume : Nat
deriving DecidableEq, Repr

def msPerDay : Nat := 86400000

/-- The record mapping of `getPolygonData` (lines 133-147): each aggregate
becomes a record whose date is the full timestamp for `5M` and the UTC
calendar day otherwise.  The source applies no sort and no duplicate
collapsing of its own; the list keeps the provider's order. -/
def polygonHistory (P : Type) (timeframe5M : Bool) (results : List (PolygonAgg P)) :
    List (HistoryRecord P) :=
  results.map (fun item =>
    { date := if timeframe5M then item.t else item.t / msPerDay
      open_ := item.o
      high := item.h
      low := item.l
      close := item.c
      volume := item.v.getD 0 })

/-- Body of a Polygon JSON response: `status` (`'OK'` or not) and
`results`. -/
structure PolygonBody (P : Type) where
  statusOK : Bool
  results : List (PolygonAgg P)
deriving DecidableEq, Repr

/-- Outcome of the HTTP call inside `getPolygonData`, supplied by the
environment: a parsed body, an HTTP 429, another HTTP error status, or a
network/parse failure. -/
inductive PolygonHttpResult (P : Type) where
  | ok (body : PolygonBody P)
  | rateLimited429
  | httpError (status : Nat)
  | networkError
deriving DecidableEq, Repr

/-- `getPolygonData` (lines 74-175) as explicit state passing: consult the
gate (a denial throws, which the catch turns into `null`); once allowed,
record the timestamp, then issue the fetch; a 429 sets the hard cooldown
for one minute; any failure is caught and returns `null` (`none`), a valid
non-empty body returns the converted history. -/
def getPolygonData (P : Type) (timeframe5M : Bool) (st : PolygonRateLimitState)
    (now : Nat) (resp : PolygonHttpResult P) :
    PolygonRateLimitState × Option (List (HistoryRecord P)) :=
  let c := canMakePolygonRequest st now
  if c.2.canMake = false then
    (c.1, none)
  else
    let st2 := recordPolygonRequest c.1 now
    match resp with
    | .rateLimited429 =>
        ({ st2 with isRateLimited := true, rateLimitResetTime := now + 60000 }, none)
    | .httpError _ => (st2, none)
    | .networkError => (st2, none)
    | .ok body =>
        if body.statusOK = true ∧ body.results.length ≠ 0 then
          (st2, some (polygonHistory P timeframe5M body.results))
        else
          (st2, none)

/-! ## Cache keys and the weekend trading day (`handleGetStockData`, lines 576-617) -/

/-- Day of week of an epoch-day index; 1970-01-01 (day 0) was a Thursday,
so Sunday is 0 and Saturday is 6, matching JavaScript `Date.getDay`. -/
def dayOfWeek (d : Nat) : Nat := (d + 4) % 7

/-- The history cache key `global_intraday_SYMBOL_DATE` /
`global_history_SYMBOL_DATE` (lines 581-583), represented by the data its
string rendering is injective in. -/
structure HistoryCacheKey where
  intraday : Bool
  symbol : String
  day : Nat
deriving DecidableEq, Repr

/-- The key the handler computes for a request (lines 577-583): it embeds
`today`, the calendar date of the request. -/
def historyCacheKey (symbol : String) (timeframe5M : Bool) (today : Nat) :
    HistoryCacheKey :=
  ⟨timeframe5M, symbol, today⟩

/-- The weekend fallback (lines 594-601): Sunday resolves two days back,
Saturday one day back, a weekday stays put. -/
def lastTradingDay (today : Nat) : Nat :=
  if dayOfWeek today = 0 then today - 2
  else if dayOfWeek today = 6 then today - 1
  else today

/-- The extra cache key consulted on weekends (lines 604-606), which embeds
the resolved trading day instead of the calendar date. -/
def weekendHistoryCacheKey (symbol : String) (timeframe5M : Bool) (today : Nat) :
    HistoryCacheKey :=
  ⟨timeframe5M, symbol, lastTradingDay today⟩

/-! ## History TTLs (`fetchHistoricalData` line 473; legacy variant) -/

/-- The TTL chosen by the active `fetchHistoricalData` (line 473): one hour
for the intraday timeframe, seven days for daily.  `handleGetStockData`
writes the history cache with exactly this value (lines 734-742). -/
def historyFetchCacheTime (timeframe5M : Bool) : Nat :=
  if timeframe5M then 3600 else 86400 * 7

/-- The 21:00 UTC instant of the current UTC day (`setUTCHours(21,0,0,0)`
on a copy of `now`), from the legacy handler variant of the repository. -/
def marketCloseUTC (nowMs : Nat) : Nat :=
  (nowMs / msPerDay) * msPerDay + 21 * 3600000

/-- The cache TTL actually written by the legacy handler variant (the
`actualCacheTime` computation): the intraday timeframe keeps the fetch
TTL; daily data is cached until the 21:00 UTC market close when the close
has not yet passed, otherwise for seven days. -/
def legacyActualCacheTime (timeframe5M : Bool) (cacheTime nowMs : Nat) : Nat :=
  if timeframe5M then cacheTime
  else if nowMs < marketCloseUTC nowMs then
    (marketCloseUTC nowMs - nowMs) / 1000
  else 86400 * 7

/-! ## yfinance adapter (`getYfinanceHistoryData`, yfinance-shared.js) -/

/-- One row of a Yahoo chart response: a second-resolution timestamp and
the optional per-field quote entries. -/
structure YfRawRow (P : Type) where
  ts : Nat
  openQ : Option P
  highQ : Option P
  lowQ : Option P
  closeQ : Option P
  adjCloseQ : Option P
  volumeQ : Option Nat
deriving DecidableEq, Repr

/-- The close used by the conversion (line 101): the adjusted close when
present, else the raw close; a row with neither is skipped (lines 104-107). -/
def yfClose (P : Type) (r : YfRawRow P) : Option P :=
  match r.adjCloseQ with
  | some c => some c
  | none => r.closeQ

/-- The date field of a converted row (line 112): the full millisecond
instant for the intraday timeframe, the UTC day otherwise. -/
def yfDate (timeframe5M : Bool) (ts : Nat) : Nat :=
  if timeframe5M then ts * 1000 else (ts * 1000) / msPerDay

/-- Row conversion loop of `getYfinanceHistoryData` (lines 94-119): skip
rows without a usable close, default missing open/high/low to the close and
missing volume to zero. -/
def yfBuildHistory (P : Type) (timeframe5M : Bool) (rows : List (YfRawRow P)) :
    List (HistoryRecord P) :=
  rows.filterMap (fun r =>
    match yfClose P r with
    | none => none
    | some c =>
        some { date := yfDate timeframe5M r.ts
               open_ := r.openQ.getD c
               high := r.highQ.getD c
               low := r.lowQ.getD c
               close := c
               volume := r.volumeQ.getD 0 })

/-- `getYfinanceHistoryData`'s history output (lines 94-124): the converted
rows, sorted ascending by date only when the timeframe is not `5M`
(lines 121-124); the sort comparator orders by the parsed date. -/
def getYfinanceHistory (P : Type) (timeframe5M : Bool) (rows : List (YfRawRow P)) :
    List (HistoryRecord P) :=
  let history := yfBuildHistory P timeframe5M rows
  if timeframe5M then history
  else history.mergeSort (fun a b => a.date ≤ b.date)

/-- Strict ascent of the date sequence of a record list; the spec's
"sorted strictly ascending by date with no duplicate dates". -/
def strictlyAscendingDates (P : Type) (l : List (HistoryRecord P)) : Prop :=
  (l.map (fun r => r.date)).Pairwise (fun a b => a < b)

instance (P : Type) (l : List (HistoryRecord P)) :
    Decidable (strictlyAscendingDates P l) := by
  unfold strictlyAscendingDates
  exact List.instDecidablePairwise _

/-! ## Single-request control flow of `handleGetStockData` (lines 576-763) -/

/-- Outcome of one `kv.get`: a stored value, a miss, or a store failure
(the thrown error reaching the surrounding catch). -/
inductive KvReadResult (A : Type) where
  | found (v : A)
  | missing
  | storeError
deriving DecidableEq, Repr

/-- Outcome of one `kv.set`. -/
inductive KvWriteResult where
  | written
  | storeError
deriving DecidableEq, Repr

/-- The value a `kv.get` produced when it did not throw. -/
def kvValue (A : Type) : KvReadResult A → Option A
  | .found v => some v
  | .missing => none
  | .storeError => none

/-- The HTTP responses `handleGetStockData` can produce past input
validation: a 200 with quote fields and history, the 404 of the quote
branch (lines 670-674), the 404 of the history branch (lines 723-726), and
the 404 for incomplete data (lines 746-754). -/
inductive StockResponse (Q D : Type) where
  | success (quote : Q) (history : D)
  | quoteNotFound (details : String)
  | historyNotFound (details : String)
  | incomplete
deriving DecidableEq, Repr

/-- Environment of one isolated request (pending map empty): the epoch day
of `new Date()`, the timeframe, the outcome of each cache access and of
each upstream fetch.  `Q` is the shape of quote data, `D` of history data;
a history fetch success carries its `cacheTime`. -/
structure StockEnv (Q D : Type) where
  todayDay : Nat
  timeframe5M : Bool
  weekendRead : KvReadResult D
  quoteRead : KvReadResult Q
  historyRead : KvReadResult D
  quoteFetch : Except String Q
  historyFetch : Except String (D × Nat)
  quoteWrite : KvWriteResult
  historyWrite : KvWriteResult
deriving Repr

/-- History part of the handler once quote data is at hand (lines 693-763):
a cached series is served as is; otherwise the fetch result is delivered,
its cache write swallowing any store failure, and a fetch error becomes
the typed 404 of lines 723-726. -/
def historyPhase (Q D : Type) (env : StockEnv Q D) (q : Q) (histCached : Option D) :
    StockResponse Q D :=
  match histCached with
  | some h => .success q h
  | none =>
      match env.historyFetch with
      | .error e => .historyNotFound e
      | .ok dc => .success q dc.1

/-- `handleGetStockData` for one isolated request (lines 576-763).  The
weekend pre-read (lines 608-616) swallows its own store failure.  The joint
try block around the quote and history reads (lines 621-635) means a throw
in either read nulls the quote value and leaves only weekend data; the
history read is skipped when weekend data was found.  A quote cache miss
falls back to the live quote fetch, whose failure is the 404 of
lines 670-674; the quote cache write failure is swallowed (lines 686-688). -/
def handleGetStockData (Q D : Type) (env : StockEnv Q D) : StockResponse Q D :=
  let isWknd := dayOfWeek env.todayDay = 0 ∨ dayOfWeek env.todayDay = 6
  let weekendHist : Option D := if isWknd then kvValue D env.weekendRead else none
  let pair : Option Q × Option D :=
    match env.quoteRead with
    | .storeError => (none, weekendHist)
    | qr =>
        match weekendHist with
        | some h => (kvValue Q qr, some h)
        | none =>
            match env.historyRead with
            | .storeError => (none, none)
            | hr => (kvValue Q qr, kvValue D hr)
  match pair.1 with
  | some q => historyPhase Q D env q pair.2
  | none =>
      match env.quoteFetch with
      | .error e => .quoteNotFound e
      | .ok q => historyPhase Q D env q pair.2

/-! ## Request coalescing (`pendingRequests`, lines 693-763)

One cache key is modelled.  Fetches are numbered in start order; the
oracle `res` assigns each fetch id the value its promise settles with
(`fetchHistoricalData` resolves to `{ data, cacheTime }` or rejects with an
error).  `D` is the shape of a history record set, `E` of an error. -/

/-- The `history` field a caller puts in its 200 response.  The starter of
a fetch unwraps the settled value (`historyData = result.data`, line 719);
a caller that awaited an existing pending promise stores the settled value
itself (`historyData = await pendingRequests.get(requestKey)`, line 702),
which is the whole `{ data, cacheTime }` object. -/
inductive HistPayload (D : Type) where
  | plain (d : D)
  | wrapped (d : D) (cacheTime : Nat)
deriving DecidableEq, Repr

/-- What a caller's request ends with in the history section: a 200 whose
`history` field is `h`, or the typed 404 of lines 723-726 carrying the
fetch error. -/
inductive CallerResp (D E : Type) where
  | delivered (h : HistPayload D)
  | notFound (e : E)
deriving DecidableEq, Repr

/-- A caller of the history-miss section, by suspension point: about to run
the `pendingRequests.has` check (line 699); awaiting the fetch it started
and registered (line 718); awaiting a pending fetch it attached to
(line 702); or finished with a response. -/
inductive PState (D E : Type) where
  | checking
  | waitingOwn (fid : Nat)
  | waitingOther (fid : Nat)
  | done (r : CallerResp D E)
deriving DecidableEq, Repr

/-- Shared state of one process for one cache key: the callers, the
`pendingRequests` entry for the key, the number of fetches started, and
the ids of settled fetches. -/
structure CoalState (D E : Type) where
  procs : List (PState D E)
  registry : Option Nat
  nextFid : Nat
  settledFids : List Nat
deriving DecidableEq, Repr

/-- Resume the starter of fetch `fid` (lines 717-731): on fulfilment it
takes `result.data` and, in the same synchronous segment, the `finally`
deletes the registry entry; on rejection the catch returns the typed 404
after the same `finally` delete. -/
def resumeOwnerProc (D E : Type) (res : Nat → Except E (D × Nat)) (fid : Nat)
    (p : PState D E) : PState D E :=
  match p with
  | .waitingOwn f =>
      if f = fid then
        match res fid with
        | .ok dc => .done (.delivered (.plain dc.1))
        | .error e => .done (.notFound e)
      else p
  | _ => p

/-- Whether some caller is awaiting its own fetch `fid`. -/
def hasOwner (D E : Type) (fid : Nat) (ps : List (PState D E)) : Bool :=
  ps.any (fun p =>
    match p with
    | .waitingOwn f => f = fid
    | _ => false)

/-- Resume, in order, the callers attached to fetch `fid` (lines 699-731).
On fulfilment a waiter keeps the settled value itself as its history and
responds (its `cacheTime` variable is unset, so it skips the cache write).
On rejection a waiter's `historyData` is `null`, so it falls into the
`!historyData` branch: it starts a fresh fetch and stores it in
`pendingRequests` without rechecking the map, overwriting any entry.
Returns the updated callers, registry entry and fetch counter. -/
def resumeWaiters (D E : Type) (res : Nat → Except E (D × Nat)) (fid : Nat) :
    List (PState D E) → Option Nat → Nat → List (PState D E) × Option Nat × Nat
  | [], reg, nf => ([], reg, nf)
  | p :: ps, reg, nf =>
      match p with
      | .waitingOther f =>
          if f = fid then
            match res fid with
            | .ok dc =>
                let r := resumeWaiters D E res fid ps reg nf
                (.done (.delivered (.wrapped dc.1 dc.2)) :: r.1, r.2)
            | .error _ =>
                let r := resumeWaiters D E res fid ps (some nf) (nf + 1)
                (.waitingOwn nf :: r.1, r.2)
          else
            let r := resumeWaiters D E res fid ps reg nf
            (p :: r.1, r.2)
      | _ =>
          let r := resumeWaiters D E res fid ps reg nf
          (p :: r.1, r.2)

/-- Settlement of fetch `fid`: the fetch is marked settled and every
reaction registered on its promise runs, in registration order, each to its
next suspension point — the starter first (whose `finally` deletes the
key's entry), then the attached waiters. -/
def settleStep (D E : Type) (res : Nat → Except E (D × Nat)) (fid : Nat)
    (s : CoalState D E) : CoalState D E :=
  let ps1 := s.procs.map (resumeOwnerProc D E res fid)
  let reg1 := if hasOwner D E fid s.procs then none else s.registry
  let w := resumeWaiters D E res fid ps1 reg1 s.nextFid
  { procs := w.1, registry := w.2.1, nextFid := w.2.2,
    settledFids := fid :: s.settledFids }

/-- Interleaving steps of the history-miss section.  `arrive` is a caller
reaching the `pendingRequests.has` check after its cache miss.  `attach`
and `startFetch` are the two outcomes of that check; the check, the call of
`fetchHistoricalData`, the `pendingRequests.set` and the registration of
the `await` happen in one synchronous segment with no suspension between
them.  `settle` is the settlement of an in-flight fetch with all its
promise reactions. -/
inductive CoalStep (D E : Type) (res : Nat → Except E (D × Nat)) :
    CoalState D E → CoalState D E → Prop where
  | arrive (s : CoalState D E) :
      CoalStep D E res s { s with procs := s.procs ++ [.checking] }
  | attach (s : CoalState D E) (pid fid : Nat) :
      s.procs[pid]? = some .checking →
      s.registry = some fid →
      CoalStep D E res s { s with procs := s.procs.set pid (.waitingOther fid) }
  | startFetch (s : CoalState D E) (pid : Nat) :
      s.procs[pid]? = some .checking →
      s.registry = none →
      CoalStep D E res s
        { s with procs := s.procs.set pid (.waitingOwn s.nextFid),
                 registry := some s.nextFid, nextFid := s.nextFid + 1 }
  | settle (s : CoalState D E) (fid : Nat) :
      fid < s.nextFid →
      fid ∉ s.settledFids →
      CoalStep D E res s (settleStep D E res fid s)

/-- The empty initial state: no callers, no pending entry, no fetches. -/
def coalInit (D E : Type) : CoalState D E := ⟨[], none, 0, []⟩

/-- States reachable from the initial state by interleaved steps. -/
def CoalReachable (D E : Type) (res : Nat → Except E (D × Nat))
    (s : CoalState D E) : Prop :=
  Relation.ReflTransGen (CoalStep D E res) (coalInit D E) s

/-- Number of fetches started and not yet settled. -/
def inFlightCount (D E : Type) (s : CoalState D E) : Nat :=
  ((List.range s.nextFid).filter (fun f => f ∉ s.settledFids)).length

/-- Provenance of a response, relative to the oracle and the settled
fetches: a delivered history is the data of a settled successful fetch
(bare or still wrapped with its cacheTime), and a 404 carries the error a
settled fetch rejected with. -/
def RespFromFetch (D E : Type) (res : Nat → Except E (D × Nat))
    (settledL : List Nat) : CallerResp D E → Prop
  | .delivered (.plain d) => ∃ f ∈ settledL, ∃ ct, res f = .ok (d, ct)
  | .delivered (.wrapped d ct) => ∃ f ∈ settledL, res f = .ok (d, ct)
  | .notFound e => ∃ f ∈ settledL, res f = .error e

/-- Inductive invariant of the coalescer semantics, used for the claims
about the registry and about response provenance. -/
structure CoalInv (D E : Type) (res : Nat → Except E (D × Nat))
    (s : CoalState D E) : Prop where
  reg_lt : ∀ f, s.registry = some f → f < s.nextFid
  reg_unsettled : ∀ f, s.registry = some f → f ∉ s.settledFids
  reg_owner : ∀ f, s.registry = some f → PState.waitingOwn f ∈ s.procs
  own_lt : ∀ f, PState.waitingOwn (D := D) (E := E) f ∈ s.procs → f < s.nextFid
  own_unsettled : ∀ f, PState.waitingOwn (D := D) (E := E) f ∈ s.procs →
    f ∉ s.settledFids
  other_lt : ∀ f, PState.waitingOther (D := D) (E := E) f ∈ s.procs → f < s.nextFid
  other_unsettled : ∀ f, PState.waitingOther (D := D) (E := E) f ∈ s.procs →
    f ∉ s.settledFids
  settled_lt : ∀ f ∈ s.settledFids, f < s.nextFid
  done_from : ∀ r, PState.done r ∈ s.procs → RespFromFetch D E res s.settledFids r

/-! ## Concrete scenarios used to evaluate the semantics -/

/-- Oracle under which every fetch fulfils with data `7` and cacheTime
`3600`. -/
def resAlwaysOk : Nat → Except Nat (Nat × Nat) := fun _ => Except.ok (7, 3600)

/-- Oracle under which every fetch rejects with error `0`. -/
def resAlwaysErr : Nat → Except Nat (Nat × Nat) := fun _ => Except.error 0

/-- One caller has arrived at the `pendingRequests.has` check. -/
def coalOne : CoalState Nat Nat := ⟨[.checking], none, 0, []⟩

/-- Two callers have arrived. -/
def coalTwo : CoalState Nat Nat := ⟨[.checking, .checking], none, 0, []⟩

/-- Three callers have arrived. -/
def coalThree : CoalState Nat Nat := ⟨[.checking, .checking, .checking], none, 0, []⟩

/-- A single caller started fetch 0 and registered it. -/
def coalSolo : CoalState Nat Nat := ⟨[.waitingOwn 0], some 0, 1, []⟩

/-- The single caller's fetch rejected: typed 404 delivered, entry gone. -/
def coalSoloErr : CoalState Nat Nat := ⟨[.done (.notFound 0)], none, 1, [0]⟩

/-- Caller 0 started fetch 0; caller 1 is still at the check. -/
def coalPairStart : CoalState Nat Nat := ⟨[.waitingOwn 0, .checking], some 0, 1, []⟩

/-- Caller 1 attached to caller 0's pending fetch. -/
def coalPairAttached : CoalState Nat Nat := ⟨[.waitingOwn 0, .waitingOther 0], some 0, 1, []⟩

/-- Fetch 0 fulfilled with `(7, 3600)`: the starter delivered the bare
data, the attached caller delivered the still-wrapped settled value. -/
def coalPairDone : CoalState Nat Nat :=
  ⟨[.done (.delivered (.plain 7)), .done (.delivered (.wrapped 7 3600))], none, 1, [0]⟩

/-- Caller 0 started fetch 0; callers 1 and 2 are at the check. -/
def coalTrioStart : CoalState Nat Nat := ⟨[.waitingOwn 0, .checking, .checking], some 0, 1, []⟩

/-- Caller 1 attached to the pending fetch. -/
def coalTrioAttach1 : CoalState Nat Nat :=
  ⟨[.waitingOwn 0, .waitingOther 0, .checking], some 0, 1, []⟩

/-- Callers 1 and 2 both attached to the pending fetch. -/
def coalTrioAttach2 : CoalState Nat Nat :=
  ⟨[.waitingOwn 0, .waitingOther 0, .waitingOther 0], some 0, 1, []⟩

/-- Fetch 0 rejected: the starter answered 404 and deleted the entry, then
each of the two waiters started its own fresh fetch and stored it, the
second overwriting the first; fetches 1 and 2 are both in flight. -/
def coalTrioAfterReject : CoalState Nat Nat :=
  ⟨[.done (.notFound 0), .waitingOwn 1, .waitingOwn 2], some 2, 3, [0]⟩

/-- A Polygon body whose aggregates arrive out of order and with a
duplicated calendar day (timestamps are milliseconds: days 2, 1, 1). -/
def polyScrambledBody : PolygonBody Nat :=
  ⟨true, [⟨172800000, 1, 1, 1, 1, some 10⟩,
          ⟨86400000, 1, 1, 1, 1, some 10⟩,
          ⟨86400000, 2, 2, 2, 2, some 20⟩]⟩

/-- A fresh rate-limit state: no recorded requests, no cooldown. -/
def freshPolygonState : PolygonRateLimitState := ⟨[], false, 0⟩

/-- Request environment in which every cache access fails but both live
fetches succeed (quote `5`, history `7` with cacheTime `100`), on a
Thursday (day 0). -/
def envAllCacheDown : StockEnv Nat Nat :=
  ⟨0, false, .storeError, .storeError, .storeError, .ok 5, .ok (7, 100), .written, .written⟩

/-! ## Helper lemmas -/

lemma mem_set_of_mem_of_ne {A : Type} {l : List A} {i : Nat} {v a b : A}
    (ha : a ∈ l) (hb : l[i]? = some b) (hab : a ≠ b) : a ∈ l.set i v := by
  induction l generalizing i with
  | nil => cases ha
  | cons x xs ih =>
      cases i with
      | zero =>
          simp only [List.getElem?_cons_zero, Option.some_inj] at hb
          subst hb
          rcases List.mem_cons.mp ha with h | h
          · exact absurd h hab
          · simp only [List.set]
            exact List.mem_cons_of_mem _ h
      | succ j =>
          simp only [List.getElem?_cons_succ] at hb
          rcases List.mem_cons.mp ha with h | h
          · simp only [List.set, h]
            exact List.mem_cons_self _ _
          · simp only [List.set]
            exact List.mem_cons_of_mem _ (ih h hb)

lemma hasOwner_iff (D E : Type) (fid : Nat) (ps : List (PState D E)) :
    hasOwner D E fid ps = true ↔ PState.waitingOwn fid ∈ ps := by
  unfold hasOwner
  rw [List.any_eq_true]
  constructor
  · rintro ⟨p, hp, hm⟩
    cases p with
    | waitingOwn f =>
        simp only [decide_eq_true_eq] at hm
        subst hm
        exact hp
    | checking => simp at hm
    | waitingOther f => simp at hm
    | done r => simp at hm
  · intro h
    exact ⟨PState.waitingOwn fid, h, by simp⟩

lemma mem_map_resumeOwner (D E : Type) (res : Nat → Except E (D × Nat)) (fid : Nat)
    (ps : List (PState D E)) (q : PState D E)
    (hq : q ∈ ps.map (resumeOwnerProc D E res fid)) :
    (q ∈ ps ∧ q ≠ PState.waitingOwn fid) ∨
    (PState.waitingOwn (D := D) (E := E) fid ∈ ps ∧
      ((∃ d ct, res fid = Except.ok (d, ct) ∧
          q = PState.done (CallerResp.delivered (HistPayload.plain d))) ∨
       (∃ e, res fid = Except.error e ∧ q = PState.done (CallerResp.notFound e)))) := by
  rcases List.mem_map.mp hq with ⟨p, hp, rfl⟩
  cases p with
  | waitingOwn f =>
      by_cases hf : f = fid
      · subst hf
        cases hres : res f with
        | ok dc =>
            rcases dc with ⟨d, ct⟩
            right
            exact ⟨hp, Or.inl ⟨d, ct, rfl, by simp [resumeOwnerProc, hres]⟩⟩
        | error e =>
            right
            exact ⟨hp, Or.inr ⟨e, rfl, by simp [resumeOwnerProc, hres]⟩⟩
      · left
        refine ⟨by simpa [resumeOwnerProc, hf] using hp, ?_⟩
        simp only [resumeOwnerProc, hf, if_false]
        intro h
        exact hf (by injection h)
  | checking => exact Or.inl ⟨hp, by simp [resumeOwnerProc]⟩
  | waitingOther f => exact Or.inl ⟨hp, by simp [resumeOwnerProc]⟩
  | done r => exact Or.inl ⟨hp, by simp [resumeOwnerProc]⟩

lemma resumeOwner_keeps (D E : Type) (res : Nat → Except E (D × Nat)) (fid : Nat)
    {ps : List (PState D E)} {p : PState D E}
    (hp : p ∈ ps) (hne : p ≠ PState.waitingOwn fid) :
    p ∈ ps.map (resumeOwnerProc D E res fid) := by
  have hkeep : resumeOwnerProc D E res fid p = p := by
    cases p with
    | waitingOwn f =>
        have hf : f ≠ fid := fun h => hne (by rw [h])
        simp [resumeOwnerProc, hf]
    | checking => simp [resumeOwnerProc]
    | waitingOther f => simp [resumeOwnerProc]
    | done r => simp [resumeOwnerProc]
  rw [← hkeep]
  exact List.mem_map_of_mem _ hp

lemma resumeWaiters_nf_le (D E : Type) (res : Nat → Except E (D × Nat)) (fid : Nat) :
    ∀ (ps : List (PState D E)) (reg : Option Nat) (nf : Nat),
      nf ≤ (resumeWaiters D E res fid ps reg nf).2.2 := by
  intro ps
  induction ps with
  | nil => intro reg nf; simp [resumeWaiters]
  | cons p ps ih =>
      intro reg nf
      cases p with
      | waitingOther f =>
          by_cases hf : f = fid
          · subst hf
            cases hres : res f with
            | ok dc => simpa [resumeWaiters, hres] using ih reg nf
            | error e =>
                have h := ih (some nf) (nf + 1)
                simp [resumeWaiters, hres]
                omega
          · simpa [resumeWaiters, hf] using ih reg nf
      | checking => simpa [resumeWaiters] using ih reg nf
      | waitingOwn f => simpa [resumeWaiters] using ih reg nf
      | done r => simpa [resumeWaiters] using ih reg nf

lemma resumeWaiters_mem (D E : Type) (res : Nat → Except E (D × Nat)) (fid : Nat) :
    ∀ (ps : List (PState D E)) (reg : Option Nat) (nf : Nat) (q : PState D E),
      q ∈ (resumeWaiters D E res fid ps reg nf).1 →
      (q ∈ ps ∧ q ≠ PState.waitingOther fid) ∨
      (∃ d ct, res fid = Except.ok (d, ct) ∧
        q = PState.done (CallerResp.delivered (HistPayload.wrapped d ct))) ∨
      (∃ k, (∃ e, res fid = Except.error e) ∧ q = PState.waitingOwn k ∧
        nf ≤ k ∧ k < (resumeWaiters D E res fid ps reg nf).2.2) := by
  intro ps
  induction ps with
  | nil => intro reg nf q hq; simp [resumeWaiters] at hq
  | cons p ps ih =>
      intro reg nf q hq
      cases p with
      | waitingOther f =>
          by_cases hf : f = fid
          · cases hres : res fid with
            | ok dc =>
                rcases dc with ⟨d, ct⟩
                have hstep : resumeWaiters D E res fid (PState.waitingOther f :: ps) reg nf =
                    (PState.done (CallerResp.delivered (HistPayload.wrapped d ct)) ::
                      (resumeWaiters D E res fid ps reg nf).1,
                     (resumeWaiters D E res fid ps reg nf).2) := by
                  simp [resumeWaiters, hf, hres]
                rw [hstep] at hq
                simp only [hstep]
                rw [← hres]
                rcases List.mem_cons.mp hq with h | h
                · exact Or.inr (Or.inl ⟨d, ct, hres, h⟩)
                · rcases ih reg nf q h with ⟨h1, h2⟩ | h' | ⟨k, he, hk, h3, h4⟩
                  · exact Or.inl ⟨List.mem_cons_of_mem _ h1, h2⟩
                  · exact Or.inr (Or.inl h')
                  · exact Or.inr (Or.inr ⟨k, he, hk, h3, h4⟩)
            | error e =>
                have hstep : resumeWaiters D E res fid (PState.waitingOther f :: ps) reg nf =
                    (PState.waitingOwn nf :: (resumeWaiters D E res fid ps (some nf) (nf + 1)).1,
                     (resumeWaiters D E res fid ps (some nf) (nf + 1)).2) := by
                  simp [resumeWaiters, hf, hres]
                rw [hstep] at hq
                simp only [hstep]
                rw [← hres]
                have hle := resumeWaiters_nf_le D E res fid ps (some nf) (nf + 1)
                rcases List.mem_cons.mp hq with h | h
                · refine Or.inr (Or.inr ⟨nf, ⟨e, hres⟩, h, Nat.le_refl _, ?_⟩)
                  omega
                · rcases ih (some nf) (nf + 1) q h with ⟨h1, h2⟩ | h' | ⟨k, he, hk, h3, h4⟩
                  · exact Or.inl ⟨List.mem_cons_of_mem _ h1, h2⟩
                  · exact Or.inr (Or.inl h')
                  · exact Or.inr (Or.inr ⟨k, he, hk, by omega, h4⟩)
          · have hstep : resumeWaiters D E res fid (PState.waitingOther f :: ps) reg nf =
                (PState.waitingOther f :: (resumeWaiters D E res fid ps reg nf).1,
                 (resumeWaiters D E res fid ps reg nf).2) := by
              simp [resumeWaiters, hf]
            rw [hstep] at hq
            simp only [hstep]
            rcases List.mem_cons.mp hq with h | h
            · subst h
              refine Or.inl ⟨List.mem_cons_self _ _, ?_⟩
              intro hcon
              exact hf (by injection hcon)
            · rcases ih reg nf q h with ⟨h1, h2⟩ | h' | ⟨k, he, hk, h3, h4⟩
              · exact Or.inl ⟨List.mem_cons_of_mem _ h1, h2⟩
              · exact Or.inr (Or.inl h')
              · exact Or.inr (Or.inr ⟨k, he, hk, h3, h4⟩)
      | checking =>
          have hstep : resumeWaiters D E res fid (PState.checking :: ps) reg nf =
              (PState.checking :: (resumeWaiters D E res fid ps reg nf).1,
               (resumeWaiters D E res fid ps reg nf).2) := by
            simp [resumeWaiters]
          rw [hstep] at hq
          simp only [hstep]
          rcases List.mem_cons.mp hq with h | h
          · subst h
            exact Or.inl ⟨List.mem_cons_self _ _, by simp⟩
          · rcases ih reg nf q h with ⟨h1, h2⟩ | h' | ⟨k, he, hk, h3, h4⟩
            · exact Or.inl ⟨List.mem_cons_of_mem _ h1, h2⟩
            · exact Or.inr (Or.inl h')
            · exact Or.inr (Or.inr ⟨k, he, hk, h3, h4⟩)
      | waitingOwn f =>
          have hstep : resumeWaiters D E res fid (PState.waitingOwn f :: ps) reg nf =
              (PState.waitingOwn f :: (resumeWaiters D E res fid ps reg nf).1,
               (resumeWaiters D E res fid ps reg nf).2) := by
            simp [resumeWaiters]
          rw [hstep] at hq
          simp only [hstep]
          rcases List.mem_cons.mp hq with h | h
          · subst h
            exact Or.inl ⟨List.mem_cons_self _ _, by simp⟩
          · rcases ih reg nf q h with ⟨h1, h2⟩ | h' | ⟨k, he, hk, h3, h4⟩
            · exact Or.inl ⟨List.mem_cons_of_mem _ h1, h2⟩
            · exact Or.inr (Or.inl h')
            · exact Or.inr (Or.inr ⟨k, he, hk, h3, h4⟩)
      | done r =>
          have hstep : resumeWaiters D E res fid (PState.done r :: ps) reg nf =
              (PState.done r :: (resumeWaiters D E res fid ps reg nf).1,
               (resumeWaiters D E res fid ps reg nf).2) := by
            simp [resumeWaiters]
          rw [hstep] at hq
          simp only [hstep]
          rcases List.mem_cons.mp hq with h | h
          · subst h
            exact Or.inl ⟨List.mem_cons_self _ _, by simp⟩
          · rcases ih reg nf q h with ⟨h1, h2⟩ | h' | ⟨k, he, hk, h3, h4⟩
            · exact Or.inl ⟨List.mem_cons_of_mem _ h1, h2⟩
            · exact Or.inr (Or.inl h')
            · exact Or.inr (Or.inr ⟨k, he, hk, h3, h4⟩)

lemma resumeWaiters_reg (D E : Type) (res : Nat → Except E (D × Nat)) (fid : Nat) :
    ∀ (ps : List (PState D E)) (reg : Option Nat) (nf : Nat),
      (resumeWaiters D E res fid ps reg nf).2.1 = reg ∨
      ∃ k, (resumeWaiters D E res fid ps reg nf).2.1 = some k ∧ nf ≤ k ∧
        k < (resumeWaiters D E res fid ps reg nf).2.2 ∧
        PState.waitingOwn k ∈ (resumeWaiters D E res fid ps reg nf).1 := by
  intro ps
  induction ps with
  | nil => intro reg nf; simp [resumeWaiters]
  | cons p ps ih =>
      intro reg nf
      cases p with
      | waitingOther f =>
          by_cases hf : f = fid
          · cases hres : res fid with
            | ok dc =>
                rcases dc with ⟨d, ct⟩
                have hstep : resumeWaiters D E res fid (PState.waitingOther f :: ps) reg nf =
                    (PState.done (CallerResp.delivered (HistPayload.wrapped d ct)) ::
                      (resumeWaiters D E res fid ps reg nf).1,
                     (resumeWaiters D E res fid ps reg nf).2) := by
                  simp [resumeWaiters, hf, hres]
                simp only [hstep]
                rcases ih reg nf with h | ⟨k, h1, h2, h3, h4⟩
                · exact Or.inl h
                · exact Or.inr ⟨k, h1, h2, h3, List.mem_cons_of_mem _ h4⟩
            | error e =>
                have hstep : resumeWaiters D E res fid (PState.waitingOther f :: ps) reg nf =
                    (PState.waitingOwn nf :: (resumeWaiters D E res fid ps (some nf) (nf + 1)).1,
                     (resumeWaiters D E res fid ps (some nf) (nf + 1)).2) := by
                  simp [resumeWaiters, hf, hres]
                simp only [hstep]
                have hle := resumeWaiters_nf_le D E res fid ps (some nf) (nf + 1)
                rcases ih (some nf) (nf + 1) with h | ⟨k, h1, h2, h3, h4⟩
                · refine Or.inr ⟨nf, h, Nat.le_refl _, by omega, List.mem_cons_self _ _⟩
                · exact Or.inr ⟨k, h1, by omega, h3, List.mem_cons_of_mem _ h4⟩
          · have hstep : resumeWaiters D E res fid (PState.waitingOther f :: ps) reg nf =
                (PState.waitingOther f :: (resumeWaiters D E res fid ps reg nf).1,
                 (resumeWaiters D E res fid ps reg nf).2) := by
              simp [resumeWaiters, hf]
            simp only [hstep]
            rcases ih reg nf with h | ⟨k, h1, h2, h3, h4⟩
            · exact Or.inl h
            · exact Or.inr ⟨k, h1, h2, h3, List.mem_cons_of_mem _ h4⟩
      | checking =>
          have hstep : resumeWaiters D E res fid (PState.checking :: ps) reg nf =
              (PState.checking :: (resumeWaiters D E res fid ps reg nf).1,
               (resumeWaiters D E res fid ps reg nf).2) := by
            simp [resumeWaiters]
          simp only [hstep]
          rcases ih reg nf with h | ⟨k, h1, h2, h3, h4⟩
          · exact Or.inl h
          · exact Or.inr ⟨k, h1, h2, h3, List.mem_cons_of_mem _ h4⟩
      | waitingOwn f =>
          have hstep : resumeWaiters D E res fid (PState.waitingOwn f :: ps) reg nf =
              (PState.waitingOwn f :: (resumeWaiters D E res fid ps reg nf).1,
               (resumeWaiters D E res fid ps reg nf).2) := by
            simp [resumeWaiters]
          simp only [hstep]
          rcases ih reg nf with h | ⟨k, h1, h2, h3, h4⟩
          · exact Or.inl h
          · exact Or.inr ⟨k, h1, h2, h3, List.mem_cons_of_mem _ h4⟩
      | done r =>
          have hstep : resumeWaiters D E res fid (PState.done r :: ps) reg nf =
              (PState.done r :: (resumeWaiters D E res fid ps reg nf).1,
               (resumeWaiters D E res fid ps reg nf).2) := by
            simp [resumeWaiters]
          simp only [hstep]
          rcases ih reg nf with h | ⟨k, h1, h2, h3, h4⟩
          · exact Or.inl h
          · exact Or.inr ⟨k, h1, h2, h3, List.mem_cons_of_mem _ h4⟩

lemma resumeWaiters_pass (D E : Type) (res : Nat → Except E (D × Nat)) (fid : Nat) :
    ∀ (ps : List (PState D E)) (reg : Option Nat) (nf : Nat) (q : PState D E),
      q ∈ ps → q = PState.waitingOther fid ∨ q ∈ (resumeWaiters D E res fid ps reg nf).1 := by
  intro ps
  induction ps with
  | nil => intro reg nf q hq; cases hq
  | cons p ps ih =>
      intro reg nf q hq
      cases p with
      | waitingOther f =>
          by_cases hf : f = fid
          · subst hf
            rcases List.mem_cons.mp hq with h | h
            · exact Or.inl h
            · cases hres : res f with
              | ok dc =>
                  rcases dc with ⟨d, ct⟩
                  have hstep : resumeWaiters D E res f (PState.waitingOther f :: ps) reg nf =
                      (PState.done (CallerResp.delivered (HistPayload.wrapped d ct)) ::
                        (resumeWaiters D E res f ps reg nf).1,
                       (resumeWaiters D E res f ps reg nf).2) := by
                    simp [resumeWaiters, hres]
                  simp only [hstep]
                  rcases ih reg nf q h with h' | h'
                  · exact Or.inl h'
                  · exact Or.inr (List.mem_cons_of_mem _ h')
              | error e =>
                  have hstep : resumeWaiters D E res f (PState.waitingOther f :: ps) reg nf =
                      (PState.waitingOwn nf ::
                        (resumeWaiters D E res f ps (some nf) (nf + 1)).1,
                       (resumeWaiters D E res f ps (some nf) (nf + 1)).2) := by
                    simp [resumeWaiters, hres]
                  simp only [hstep]
                  rcases ih (some nf) (nf + 1) q h with h' | h'
                  · exact Or.inl h'
                  · exact Or.inr (List.mem_cons_of_mem _ h')
          · have hstep : resumeWaiters D E res fid (PState.waitingOther f :: ps) reg nf =
                (PState.waitingOther f :: (resumeWaiters D E res fid ps reg nf).1,
                 (resumeWaiters D E res fid ps reg nf).2) := by
              simp [resumeWaiters, hf]
            simp only [hstep]
            rcases List.mem_cons.mp hq with h | h
            · exact Or.inr (by rw [h]; exact List.mem_cons_self _ _)
            · rcases ih reg nf q h with h' | h'
              · exact Or.inl h'
              · exact Or.inr (List.mem_cons_of_mem _ h')
      | checking =>
          have hstep : resumeWaiters D E res fid (PState.checking :: ps) reg nf =
              (PState.checking :: (resumeWaiters D E res fid ps reg nf).1,
               (resumeWaiters D E res fid ps reg nf).2) := by
            simp [resumeWaiters]
          simp only [hstep]
          rcases List.mem_cons.mp hq with h | h
          · exact Or.inr (by rw [h]; exact List.mem_cons_self _ _)
          · rcases ih reg nf q h with h' | h'
            · exact Or.inl h'
            · exact Or.inr (List.mem_cons_of_mem _ h')
      | waitingOwn f =>
          have hstep : resumeWaiters D E res fid (PState.waitingOwn f :: ps) reg nf =
              (PState.waitingOwn f :: (resumeWaiters D E res fid ps reg nf).1,
               (resumeWaiters D E res fid ps reg nf).2) := by
            simp [resumeWaiters]
          simp only [hstep]
          rcases List.mem_cons.mp hq with h | h
          · exact Or.inr (by rw [h]; exact List.mem_cons_self _ _)
          · rcases ih reg nf q h with h' | h'
            · exact Or.inl h'
            · exact Or.inr (List.mem_cons_of_mem _ h')
      | done r =>
          have hstep : resumeWaiters D E res fid (PState.done r :: ps) reg nf =
              (PState.done r :: (resumeWaiters D E res fid ps reg nf).1,
               (resumeWaiters D E res fid ps reg nf).2) := by
            simp [resumeWaiters]
          simp only [hstep]
          rcases List.mem_cons.mp hq with h | h
          · exact Or.inr (by rw [h]; exact List.mem_cons_self _ _)
          · rcases ih reg nf q h with h' | h'
            · exact Or.inl h'
            · exact Or.inr (List.mem_cons_of_mem _ h')

lemma respFromFetch_mono (D E : Type) (res : Nat → Except E (D × Nat))
    {L L2 : List Nat} (hsub : ∀ x ∈ L, x ∈ L2) (r : CallerResp D E)
    (hr : RespFromFetch D E res L r) : RespFromFetch D E res L2 r := by
  cases r with
  | delivered p =>
      cases p with
      | plain d =>
          obtain ⟨f, hf, ct, he⟩ := hr
          exact ⟨f, hsub f hf, ct, he⟩
      | wrapped d ct =>
          obtain ⟨f, hf, he⟩ := hr
          exact ⟨f, hsub f hf, he⟩
  | notFound e =>
      obtain ⟨f, hf, he⟩ := hr
      exact ⟨f, hsub f hf, he⟩

lemma coalInv_init (D E : Type) (res : Nat → Except E (D × Nat)) :
    CoalInv D E res (coalInit D E) := by
  refine ⟨?_, ?_, ?_, ?_, ?_, ?_, ?_, ?_, ?_⟩ <;> intro x h <;> simp [coalInit] at h

lemma coalInv_step (D E : Type) (res : Nat → Except E (D × Nat))
    {s0 t : CoalState D E} (hinv : CoalInv D E res s0)
    (hstep : CoalStep D E res s0 t) : CoalInv D E res t := by
  obtain ⟨reg_lt, reg_uns, reg_own, own_lt, own_uns, oth_lt, oth_uns, set_lt, done_fr⟩ := hinv
  cases hstep with
  | arrive =>
      refine ⟨reg_lt, reg_uns, ?_, ?_, ?_, ?_, ?_, set_lt, ?_⟩
      · intro f h
        exact List.mem_append.mpr (Or.inl (reg_own f h))
      · intro f h
        rcases List.mem_append.mp h with h' | h'
        · exact own_lt f h'
        · simp at h'
      · intro f h hc
        rcases List.mem_append.mp h with h' | h'
        · exact own_uns f h' hc
        · simp at h'
      · intro f h
        rcases List.mem_append.mp h with h' | h'
        · exact oth_lt f h'
        · simp at h'
      · intro f h hc
        rcases List.mem_append.mp h with h' | h'
        · exact oth_uns f h' hc
        · simp at h'
      · intro r h
        rcases List.mem_append.mp h with h' | h'
        · exact done_fr r h'
        · simp at h'
  | attach pid fid hp hr =>
      refine ⟨reg_lt, reg_uns, ?_, ?_, ?_, ?_, ?_, set_lt, ?_⟩
      · intro f h
        exact mem_set_of_mem_of_ne (reg_own f h) hp (by simp)
      · intro f h
        rcases List.mem_or_eq_of_mem_set h with h' | h'
        · exact own_lt f h'
        · simp at h'
      · intro f h hc
        rcases List.mem_or_eq_of_mem_set h with h' | h'
        · exact own_uns f h' hc
        · simp at h'
      · intro f h
        rcases List.mem_or_eq_of_mem_set h with h' | h'
        · exact oth_lt f h'
        · injection h' with h2
          subst h2
          exact reg_lt f hr
      · intro f h hc
        rcases List.mem_or_eq_of_mem_set h with h' | h'
        · exact oth_uns f h' hc
        · injection h' with h2
          subst h2
          exact reg_uns f hr hc
      · intro r h
        rcases List.mem_or_eq_of_mem_set h with h' | h'
        · exact done_fr r h'
        · simp at h'
  | startFetch pid hp hr =>
      refine ⟨?_, ?_, ?_, ?_, ?_, ?_, ?_, ?_, ?_⟩
      · intro f h
        injection h with h1
        subst h1
        exact Nat.lt_succ_self _
      · intro f h hc
        injection h with h1
        subst h1
        exact absurd (set_lt _ hc) (Nat.lt_irrefl _)
      · intro f h
        injection h with h1
        subst h1
        obtain ⟨hlen, -⟩ := List.getElem?_eq_some.mp hp
        exact List.mem_set s0.procs pid hlen _
      · intro f h
        rcases List.mem_or_eq_of_mem_set h with h' | h'
        · exact Nat.lt_succ_of_lt (own_lt f h')
        · injection h' with h1
          subst h1
          exact Nat.lt_succ_self _
      · intro f h hc
        rcases List.mem_or_eq_of_mem_set h with h' | h'
        · exact own_uns f h' hc
        · injection h' with h1
          subst h1
          exact absurd (set_lt _ hc) (Nat.lt_irrefl _)
      · intro f h
        rcases List.mem_or_eq_of_mem_set h with h' | h'
        · exact Nat.lt_succ_of_lt (oth_lt f h')
        · simp at h'
      · intro f h hc
        rcases List.mem_or_eq_of_mem_set h with h' | h'
        · exact oth_uns f h' hc
        · simp at h'
      · intro f hf
        exact Nat.lt_succ_of_lt (set_lt f hf)
      · intro r h
        rcases List.mem_or_eq_of_mem_set h with h' | h'
        · exact done_fr r h'
        · simp at h'
  | settle fid hflt hfns =>
      have hunfold : settleStep D E res fid s0 =
          (⟨(resumeWaiters D E res fid (s0.procs.map (resumeOwnerProc D E res fid))
               (if hasOwner D E fid s0.procs then none else s0.registry) s0.nextFid).1,
            (resumeWaiters D E res fid (s0.procs.map (resumeOwnerProc D E res fid))
               (if hasOwner D E fid s0.procs then none else s0.registry) s0.nextFid).2.1,
            (resumeWaiters D E res fid (s0.procs.map (resumeOwnerProc D E res fid))
               (if hasOwner D E fid s0.procs then none else s0.registry) s0.nextFid).2.2,
            fid :: s0.settledFids⟩ : CoalState D E) := rfl
      rw [hunfold]
      have hmem := resumeWaiters_mem D E res fid
        (s0.procs.map (resumeOwnerProc D E res fid))
        (if hasOwner D E fid s0.procs then none else s0.registry) s0.nextFid
      have hregc := resumeWaiters_reg D E res fid
        (s0.procs.map (resumeOwnerProc D E res fid))
        (if hasOwner D E fid s0.procs then none else s0.registry) s0.nextFid
      have hpass := resumeWaiters_pass D E res fid
        (s0.procs.map (resumeOwnerProc D E res fid))
        (if hasOwner D E fid s0.procs then none else s0.registry) s0.nextFid
      have hnfle := resumeWaiters_nf_le D E res fid
        (s0.procs.map (resumeOwnerProc D E res fid))
        (if hasOwner D E fid s0.procs then none else s0.registry) s0.nextFid
      refine ⟨?_, ?_, ?_, ?_, ?_, ?_, ?_, ?_, ?_⟩
      · intro f h
        dsimp only at h ⊢
        rcases hregc with h1 | ⟨k, h1, h2, h3, h4⟩
        · rw [h1] at h
          by_cases ho : hasOwner D E fid s0.procs = true
          · simp [ho] at h
          · simp [ho] at h
            exact lt_of_lt_of_le (reg_lt f h) hnfle
        · rw [h1] at h
          injection h with h5
          subst h5
          exact h3
      · intro f h hc
        dsimp only at h hc ⊢
        rcases hregc with h1 | ⟨k, h1, h2, h3, h4⟩
        · rw [h1] at h
          by_cases ho : hasOwner D E fid s0.procs = true
          · simp [ho] at h
          · simp [ho] at h
            have hfne : f ≠ fid := by
              intro he
              subst he
              exact ho ((hasOwner_iff D E f s0.procs).mpr (reg_own f h))
            rcases List.mem_cons.mp hc with hc1 | hc2
            · exact hfne hc1
            · exact reg_uns f h hc2
        · rw [h1] at h
          injection h with h5
          subst h5
          rcases List.mem_cons.mp hc with hc1 | hc2
          · omega
          · exact absurd (set_lt _ hc2) (by omega)
      · intro f h
        dsimp only at h ⊢
        rcases hregc with h1 | ⟨k, h1, h2, h3, h4⟩
        · rw [h1] at h
          by_cases ho : hasOwner D E fid s0.procs = true
          · simp [ho] at h
          · simp [ho] at h
            have h0 := reg_own f h
            have hfne : f ≠ fid := by
              intro he
              subst he
              exact ho ((hasOwner_iff D E f s0.procs).mpr h0)
            have h1' := resumeOwner_keeps D E res fid h0
              (by intro hcon; exact hfne (by injection hcon))
            rcases hpass _ h1' with hcon | hmem2
            · simp at hcon
            · exact hmem2
        · rw [h1] at h
          injection h with h5
          subst h5
          exact h4
      · intro f h
        dsimp only at h ⊢
        rcases hmem _ h with ⟨h1, h2⟩ | ⟨d, ct, h1, h2⟩ | ⟨k, he, h1, h2, h3⟩
        · rcases mem_map_resumeOwner D E res fid s0.procs _ h1 with ⟨h3, h4⟩ | ⟨h3, h4⟩
          · exact lt_of_lt_of_le (own_lt f h3) hnfle
          · rcases h4 with ⟨d, ct, h5, h6⟩ | ⟨e, h5, h6⟩ <;> simp at h6
        · simp at h2
        · injection h1 with h5
          subst h5
          exact h3
      · intro f h hc
        dsimp only at h hc ⊢
        rcases hmem _ h with ⟨h1, h2⟩ | ⟨d, ct, h1, h2⟩ | ⟨k, he, h1, h2, h3⟩
        · rcases mem_map_resumeOwner D E res fid s0.procs _ h1 with ⟨h3, h4⟩ | ⟨h3, h4⟩
          · have hfne : f ≠ fid := fun he2 => h4 (by rw [he2])
            rcases List.mem_cons.mp hc with hc1 | hc2
            · exact hfne hc1
            · exact own_uns f h3 hc2
          · rcases h4 with ⟨d, ct, h5, h6⟩ | ⟨e, h5, h6⟩ <;> simp at h6
        · simp at h2
        · injection h1 with h5
          subst h5
          rcases List.mem_cons.mp hc with hc1 | hc2
          · omega
          · exact absurd (set_lt _ hc2) (by omega)
      · intro f h
        dsimp only at h ⊢
        rcases hmem _ h with ⟨h1, h2⟩ | ⟨d, ct, h1, h2⟩ | ⟨k, he, h1, h2, h3⟩
        · rcases mem_map_resumeOwner D E res fid s0.procs _ h1 with ⟨h3, h4⟩ | ⟨h3, h4⟩
          · exact lt_of_lt_of_le (oth_lt f h3) hnfle
          · rcases h4 with ⟨d, ct, h5, h6⟩ | ⟨e, h5, h6⟩ <;> simp at h6
        · simp at h2
        · simp at h1
      · intro f h hc
        dsimp only at h hc ⊢
        rcases hmem _ h with ⟨h1, h2⟩ | ⟨d, ct, h1, h2⟩ | ⟨k, he, h1, h2, h3⟩
        · rcases mem_map_resumeOwner D E res fid s0.procs _ h1 with ⟨h3, h4⟩ | ⟨h3, h4⟩
          · have hfne : f ≠ fid := fun he2 => h2 (by rw [he2])
            rcases List.mem_cons.mp hc with hc1 | hc2
            · exact hfne hc1
            · exact oth_uns f h3 hc2
          · rcases h4 with ⟨d, ct, h5, h6⟩ | ⟨e, h5, h6⟩ <;> simp at h6
        · simp at h2
        · simp at h1
      · intro f hf
        dsimp only at hf ⊢
        rcases List.mem_cons.mp hf with h1 | h2
        · subst h1
          exact lt_of_lt_of_le hflt hnfle
        · exact lt_of_lt_of_le (set_lt f h2) hnfle
      · intro r h
        dsimp only at h ⊢
        have hsub : ∀ x ∈ s0.settledFids, x ∈ fid :: s0.settledFids :=
          fun x hx => List.mem_cons_of_mem _ hx
        rcases hmem _ h with ⟨h1, h2⟩ | ⟨d, ct, h1, h2⟩ | ⟨k, he, h1, h2, h3⟩
        · rcases mem_map_resumeOwner D E res fid s0.procs _ h1 with ⟨h3, h4⟩ | ⟨h3, h4⟩
          · exact respFromFetch_mono D E res hsub r (done_fr r h3)
          · rcases h4 with ⟨d, ct, h5, h6⟩ | ⟨e, h5, h6⟩
            · injection h6 with h7
              subst h7
              exact ⟨fid, List.mem_cons_self _ _, ct, h5⟩
            · injection h6 with h7
              subst h7
              exact ⟨fid, List.mem_cons_self _ _, h5⟩
        · injection h2 with h7
          subst h7
          exact ⟨fid, List.mem_cons_self _ _, h1⟩
        · simp at h1

lemma coalInv_reachable (D E : Type) (res : Nat → Except E (D × Nat))
    {s : CoalState D E} (h : CoalReachable D E res s) : CoalInv D E res s := by
  unfold CoalReachable at h
  induction h with
  | refl => exact coalInv_init D E res
  | tail hab hbc ih => exact coalInv_step D E res ih hbc

/-! ## Claim theorems -/

/-- C3: the rate-limit gate check `canMakePolygonRequest` implements
exactly the five-step algorithm of the spec: deny with the remaining time
on an unexpired hard cooldown; otherwise drop timestamps older than the
window from the tracked set (the second conjunct), deny with the wait until
the oldest tracked timestamp exits the window when the set is at capacity,
deny with the remaining gap when the last request is newer than the minimum
interval, and otherwise allow. -/
theorem C3_rate_gate_implements_five_step_spec (st : PolygonRateLimitState) (now : Nat) :
    (canMakePolygonRequest st now).2 = rateGateSpec st now ∧
    (canMakePolygonRequest st now).1.requestTimestamps =
      (if st.isRateLimited ∧ now ≤ st.rateLimitResetTime then st.requestTimestamps
       else st.requestTimestamps.filter (fun t => now - t < polygonWindowMs)) := by
  rcases st with ⟨ts, irl, rt⟩
  cases irl with
  | false =>
      constructor
      · simp only [canMakePolygonRequest, rateGateSpec, checkWindowAndInterval]
        simp only [Bool.false_eq_true, if_false, false_and]
        split_ifs <;> rfl
      · simp only [canMakePolygonRequest, checkWindowAndInterval]
        simp only [Bool.false_eq_true, if_false, false_and]
        split_ifs <;> rfl
  | true =>
      by_cases h : rt < now
      · have h2 : ¬ now ≤ rt := Nat.not_le.mpr h
        constructor
        · simp only [canMakePolygonRequest, rateGateSpec, checkWindowAndInterval]
          simp only [if_pos h, true_and, if_neg h2]
          split_ifs <;> rfl
        · simp only [canMakePolygonRequest, checkWindowAndInterval]
          simp only [if_pos h, true_and, if_neg h2]
          split_ifs <;> rfl
      · have h2 : now ≤ rt := Nat.not_lt.mp h
        constructor
        · simp [canMakePolygonRequest, rateGateSpec, h, h2]
        · simp [canMakePolygonRequest, h, h2]

/-- C10: once the gate allows, `getPolygonData` records the current
timestamp before issuing the fetch, so the sliding window gains `now`
whatever the HTTP outcome — success, malformed body, HTTP error and
HTTP 429 alike consume the same rate-limit budget. -/
theorem C10_rate_budget_consumed_on_every_allowed_attempt (P : Type)
    (timeframe5M : Bool) (st : PolygonRateLimitState) (now : Nat)
    (resp : PolygonHttpResult P)
    (hallow : (canMakePolygonRequest st now).2.canMake = true) :
    (getPolygonData P timeframe5M st now resp).1.requestTimestamps =
      (canMakePolygonRequest st now).1.requestTimestamps ++ [now] := by
  unfold getPolygonData
  simp only [hallow, Bool.true_eq_false, if_false]
  cases resp with
  | ok body =>
      simp only [recordPolygonRequest]
      split <;> rfl
  | rateLimited429 => simp [recordPolygonRequest]
  | httpError c => simp [recordPolygonRequest]
  | networkError => simp [recordPolygonRequest]

/-- C10 witness: a fresh state allows the request, and a failed fetch at
time 5 still appends timestamp 5 to the window. -/
theorem C10_rate_budget_consumed_witness :
    (getPolygonData Nat false freshPolygonState 5 PolygonHttpResult.networkError).1.requestTimestamps =
      (canMakePolygonRequest freshPolygonState 5).1.requestTimestamps ++ [5] :=
  C10_rate_budget_consumed_on_every_allowed_attempt Nat false freshPolygonState 5
    PolygonHttpResult.networkError (by decide)

/-- C4 counterexample: day 2 (1970-01-03) is a Saturday, yet the history
cache key the handler computes on that Saturday differs from the key it
computes on the preceding Friday (day 1), because the primary key embeds
the calendar date. -/
theorem C4_saturday_primary_key_differs_from_friday :
    dayOfWeek 2 = 6 ∧
    historyCacheKey "AAPL" false 2 ≠ historyCacheKey "AAPL" false 1 := by
  constructor
  · rfl
  · intro h
    have h2 : (2 : Nat) = 1 := congrArg HistoryCacheKey.day h
    omega

/-- C4 amended: on a Saturday only the weekend lookup key equals the key
of the preceding Friday; the primary history key (used for the pending
entry and the cache write) embeds the calendar date and differs from
Friday's key. -/
theorem C4_weekend_lookup_key_matches_friday (symbol : String) (timeframe5M : Bool)
    (d : Nat) (hsat : dayOfWeek d = 6) :
    weekendHistoryCacheKey symbol timeframe5M d = historyCacheKey symbol timeframe5M (d - 1) ∧
    historyCacheKey symbol timeframe5M d ≠ historyCacheKey symbol timeframe5M (d - 1) := by
  have hd : 2 ≤ d := by
    unfold dayOfWeek at hsat
    omega
  constructor
  · unfold weekendHistoryCacheKey historyCacheKey lastTradingDay
    rw [hsat]
    simp
  · intro h
    have h2 := congrArg HistoryCacheKey.day h
    simp only [historyCacheKey] at h2
    omega

/-- C4 witness: the amended statement evaluated on Saturday 1970-01-03. -/
theorem C4_weekend_lookup_key_matches_friday_witness :
    weekendHistoryCacheKey "AAPL" false 2 = historyCacheKey "AAPL" false 1 ∧
    historyCacheKey "AAPL" false 2 ≠ historyCacheKey "AAPL" false 1 :=
  C4_weekend_lookup_key_matches_friday "AAPL" false 2 (by decide)

/-- C5 counterexample: at the instant 0 (midnight UTC) the market close of
the day is still ahead and lies 75600 seconds away, yet the TTL the active
handler attaches to a daily history write is the fixed 604800 seconds. -/
theorem C5_active_daily_ttl_ignores_market_close :
    historyFetchCacheTime false = 604800 ∧
    (0 : Nat) < marketCloseUTC 0 ∧
    (marketCloseUTC 0 - 0) / 1000 = 75600 ∧
    historyFetchCacheTime false ≠ (marketCloseUTC 0 - 0) / 1000 := by
  decide

/-- C5 amended: the active handler's TTLs are fixed — 3600 seconds for the
intraday timeframe and 604800 seconds (seven days) for daily; the
market-close-aware TTL exists only in the repository's legacy handler
variant, where the daily TTL is the number of seconds until 21:00 UTC when
the close is still ahead and seven days otherwise, and the intraday TTL
stays the fixed fetch TTL. -/
theorem C5_ttl_fixed_in_active_handler_close_aware_in_legacy (nowMs : Nat) :
    historyFetchCacheTime true = 3600 ∧
    historyFetchCacheTime false = 604800 ∧
    legacyActualCacheTime true (historyFetchCacheTime true) nowMs = 3600 ∧
    legacyActualCacheTime false (historyFetchCacheTime false) nowMs =
      (if nowMs % msPerDay < 75600000 then (75600000 - nowMs % msPerDay) / 1000
       else 604800) := by
  refine ⟨rfl, rfl, rfl, ?_⟩
  have hv : historyFetchCacheTime false = 604800 := rfl
  rw [hv]
  unfold legacyActualCacheTime marketCloseUTC msPerDay
  simp only [Bool.false_eq_true, if_false]
  have hdm : nowMs % 86400000 + 86400000 * (nowMs / 86400000) = nowMs :=
    Nat.mod_add_div _ _
  have hkey : nowMs / 86400000 * 86400000 + 21 * 3600000 - nowMs =
      75600000 - nowMs % 86400000 := by omega
  split_ifs with hc hm
  · rw [hkey]
  · omega
  · omega
  · omega

/-- C6 counterexample: a Polygon response whose aggregates arrive with day
2 first and day 1 twice is delivered by `getPolygonData` exactly in that
order — dates `[2, 1, 1]` — neither sorted ascending nor freed of
duplicate dates. -/
theorem C6_polygon_series_delivered_unsorted_with_duplicates :
    (getPolygonData Nat false freshPolygonState 5 (PolygonHttpResult.ok polyScrambledBody)).2 =
      some (polygonHistory Nat false polyScrambledBody.results) ∧
    (polygonHistory Nat false polyScrambledBody.results).map (fun r => r.date) = [2, 1, 1] ∧
    ¬ strictlyAscendingDates Nat (polygonHistory Nat false polyScrambledBody.results) := by
  refine ⟨by decide, by decide, by decide⟩

/-- C6 amended: only the yfinance adapter sorts, and only for the daily
timeframe: its daily output is sorted ascending (non-strictly — duplicate
dates are kept) by date; the intraday yfinance series and every Polygon
series keep the provider's native order, and no adapter collapses
duplicate dates. -/
theorem C6_yfinance_daily_sorted_ascending (P : Type) (rows : List (YfRawRow P)) :
    ((getYfinanceHistory P false rows).map (fun r => r.date)).Pairwise (fun a b => a ≤ b) := by
  rw [List.pairwise_map]
  have htrans : ∀ a b c : HistoryRecord P,
      (fun x y : HistoryRecord P => decide (x.date ≤ y.date)) a b = true →
      (fun x y : HistoryRecord P => decide (x.date ≤ y.date)) b c = true →
      (fun x y : HistoryRecord P => decide (x.date ≤ y.date)) a c = true := by
    intro a b c hab hbc
    simp only [decide_eq_true_eq] at hab hbc ⊢
    omega
  have htotal : ∀ a b : HistoryRecord P,
      ((fun x y : HistoryRecord P => decide (x.date ≤ y.date)) a b ||
       (fun x y : HistoryRecord P => decide (x.date ≤ y.date)) b a) = true := by
    intro a b
    rcases Nat.le_total a.date b.date with h | h <;> simp [h]
  have h := List.sorted_mergeSort htrans htotal (yfBuildHistory P false rows)
  have hgoal : getYfinanceHistory P false rows =
      (yfBuildHistory P false rows).mergeSort
        (fun a b : HistoryRecord P => a.date ≤ b.date) := by
    simp [getYfinanceHistory]
  rw [hgoal]
  exact h.imp (fun hab => of_decide_eq_true hab)

/-- C9: in every reachable state of the coalescer, a fetch registered in
`pendingRequests` is still in flight — started and not settled.  The
starter's unconditional `finally` delete runs in the settlement step, for
fulfilment and rejection alike, so no registry entry ever refers to a
settled fetch and a later request is never stuck behind a dead entry. -/
theorem C9_registry_entry_never_outlives_fetch (D E : Type)
    (res : Nat → Except E (D × Nat)) (s : CoalState D E)
    (hreach : CoalReachable D E res s) (f : Nat) (hf : s.registry = some f) :
    f < s.nextFid ∧ f ∉ s.settledFids :=
  ⟨(coalInv_reachable D E res hreach).reg_lt f hf,
   (coalInv_reachable D E res hreach).reg_unsettled f hf⟩

/-- C9 witness: in the reachable state where one caller has started and
registered fetch 0, the registered fetch is started and unsettled. -/
theorem C9_registry_entry_never_outlives_fetch_witness :
    0 < coalSolo.nextFid ∧ 0 ∉ coalSolo.settledFids := by
  have st1 : CoalStep Nat Nat resAlwaysOk (coalInit Nat Nat) coalOne :=
    CoalStep.arrive (coalInit Nat Nat)
  have st2 : CoalStep Nat Nat resAlwaysOk coalOne coalSolo :=
    CoalStep.startFetch coalOne 0 rfl rfl
  have hreach : CoalReachable Nat Nat resAlwaysOk coalSolo :=
    Relation.ReflTransGen.tail (Relation.ReflTransGen.tail Relation.ReflTransGen.refl st1) st2
  exact C9_registry_entry_never_outlives_fetch Nat Nat resAlwaysOk coalSolo hreach 0 rfl

/-- C7: in every reachable state of the coalescer, every finished caller
either delivered history that is literally the data of a settled successful
upstream fetch (bare for the starter, still wrapped for a waiter), or
surfaced the typed 404 carrying the error a settled fetch rejected with —
the history section never fabricates a payload that no fetch produced. -/
theorem C7_delivered_history_originates_from_fetch (D E : Type)
    (res : Nat → Except E (D × Nat)) (s : CoalState D E)
    (hreach : CoalReachable D E res s) (r : CallerResp D E)
    (hr : PState.done r ∈ s.procs) :
    RespFromFetch D E res s.settledFids r :=
  (coalInv_reachable D E res hreach).done_from r hr

/-- C7 witness: after a lone caller's fetch rejects, the typed 404 it
surfaced carries exactly the settled fetch's error. -/
theorem C7_delivered_history_originates_from_fetch_witness :
    RespFromFetch Nat Nat resAlwaysErr coalSoloErr.settledFids (CallerResp.notFound 0) := by
  have st1 : CoalStep Nat Nat resAlwaysErr (coalInit Nat Nat) coalOne :=
    CoalStep.arrive (coalInit Nat Nat)
  have st2 : CoalStep Nat Nat resAlwaysErr coalOne coalSolo :=
    CoalStep.startFetch coalOne 0 rfl rfl
  have heq : settleStep Nat Nat resAlwaysErr 0 coalSolo = coalSoloErr := by decide
  have st3 : CoalStep Nat Nat resAlwaysErr coalSolo coalSoloErr :=
    heq ▸ CoalStep.settle coalSolo 0 (by decide) (by decide)
  have hreach : CoalReachable Nat Nat resAlwaysErr coalSoloErr :=
    Relation.ReflTransGen.tail
      (Relation.ReflTransGen.tail (Relation.ReflTransGen.tail Relation.ReflTransGen.refl st1) st2)
      st3
  exact C7_delivered_history_originates_from_fetch Nat Nat resAlwaysErr coalSoloErr hreach
    (CallerResp.notFound 0) (by decide)

/-- C1: two coalesced callers do not receive an identical history payload.
In the reachable run where caller 0 starts fetch 0, caller 1 attaches to
the pending promise, and the fetch fulfils with data 7 and cacheTime 3600,
the starter's 200 carries the bare data while the attached caller's 200
carries the still-wrapped `{ data, cacheTime }` settled value — two
different payloads for the same coalesced fetch. -/
theorem C1_coalesced_callers_get_different_payloads :
    CoalReachable Nat Nat resAlwaysOk coalPairDone ∧
    coalPairDone.procs[0]? = some (PState.done (CallerResp.delivered (HistPayload.plain 7))) ∧
    coalPairDone.procs[1]? = some (PState.done (CallerResp.delivered (HistPayload.wrapped 7 3600))) ∧
    (HistPayload.plain 7 : HistPayload Nat) ≠ HistPayload.wrapped 7 3600 := by
  refine ⟨?_, by decide, by decide, by decide⟩
  have st1 : CoalStep Nat Nat resAlwaysOk (coalInit Nat Nat) coalOne :=
    CoalStep.arrive (coalInit Nat Nat)
  have st2 : CoalStep Nat Nat resAlwaysOk coalOne coalTwo :=
    CoalStep.arrive coalOne
  have st3 : CoalStep Nat Nat resAlwaysOk coalTwo coalPairStart :=
    CoalStep.startFetch coalTwo 0 rfl rfl
  have st4 : CoalStep Nat Nat resAlwaysOk coalPairStart coalPairAttached :=
    CoalStep.attach coalPairStart 1 0 rfl rfl
  have heq : settleStep Nat Nat resAlwaysOk 0 coalPairAttached = coalPairDone := by decide
  have st5 : CoalStep Nat Nat resAlwaysOk coalPairAttached coalPairDone :=
    heq ▸ CoalStep.settle coalPairAttached 0 (by decide) (by decide)
  exact Relation.ReflTransGen.tail
    (Relation.ReflTransGen.tail
      (Relation.ReflTransGen.tail
        (Relation.ReflTransGen.tail
          (Relation.ReflTransGen.tail Relation.ReflTransGen.refl st1) st2) st3) st4) st5

/-- C2: the at-most-one-in-flight invariant is violated in the rejection
interleaving.  In the reachable run where caller 0 starts fetch 0, callers
1 and 2 attach, and the fetch rejects, each waiter then starts its own
fetch without rechecking the registry: fetches 1 and 2 are in flight for
the same cache key at once. -/
theorem C2_two_upstream_fetches_in_flight_after_rejection :
    CoalReachable Nat Nat resAlwaysErr coalTrioAfterReject ∧
    inFlightCount Nat Nat coalTrioAfterReject = 2 := by
  refine ⟨?_, by decide⟩
  have st1 : CoalStep Nat Nat resAlwaysErr (coalInit Nat Nat) coalOne :=
    CoalStep.arrive (coalInit Nat Nat)
  have st2 : CoalStep Nat Nat resAlwaysErr coalOne coalTwo :=
    CoalStep.arrive coalOne
  have st3 : CoalStep Nat Nat resAlwaysErr coalTwo coalThree :=
    CoalStep.arrive coalTwo
  have st4 : CoalStep Nat Nat resAlwaysErr coalThree coalTrioStart :=
    CoalStep.startFetch coalThree 0 rfl rfl
  have st5 : CoalStep Nat Nat resAlwaysErr coalTrioStart coalTrioAttach1 :=
    CoalStep.attach coalTrioStart 1 0 rfl rfl
  have st6 : CoalStep Nat Nat resAlwaysErr coalTrioAttach1 coalTrioAttach2 :=
    CoalStep.attach coalTrioAttach1 2 0 rfl rfl
  have heq : settleStep Nat Nat resAlwaysErr 0 coalTrioAttach2 = coalTrioAfterReject := by
    decide
  have st7 : CoalStep Nat Nat resAlwaysErr coalTrioAttach2 coalTrioAfterReject :=
    heq ▸ CoalStep.settle coalTrioAttach2 0 (by decide) (by decide)
  exact Relation.ReflTransGen.tail
    (Relation.ReflTransGen.tail
      (Relation.ReflTransGen.tail
        (Relation.ReflTransGen.tail
          (Relation.ReflTransGen.tail
            (Relation.ReflTransGen.tail
              (Relation.ReflTransGen.tail Relation.ReflTransGen.refl st1) st2) st3) st4) st5)
      st6) st7

/-- C8: cache-store failures never reach the caller.  The response is
independent of the outcome of both cache writes; a quote read that throws
is handled exactly like a double miss (the joint catch also nulls the
history); a weekend-read failure equals a weekend miss; a history read
that throws (when the weekend lookup yielded nothing) is handled exactly
like a double miss; and with the store fully down but both live fetches
succeeding, the handler still returns the fresh 200. -/
theorem C8_cache_store_failures_never_surfaced (Q D : Type) (env : StockEnv Q D) :
    (∀ qw hw, handleGetStockData Q D { env with quoteWrite := qw, historyWrite := hw } =
        handleGetStockData Q D env) ∧
    (env.quoteRead = KvReadResult.storeError →
      handleGetStockData Q D env =
        handleGetStockData Q D { env with quoteRead := KvReadResult.missing,
                                          historyRead := KvReadResult.missing }) ∧
    (env.weekendRead = KvReadResult.storeError →
      handleGetStockData Q D env =
        handleGetStockData Q D { env with weekendRead := KvReadResult.missing }) ∧
    (env.historyRead = KvReadResult.storeError →
      (if dayOfWeek env.todayDay = 0 ∨ dayOfWeek env.todayDay = 6
        then kvValue D env.weekendRead else none) = none →
      handleGetStockData Q D env =
        handleGetStockData Q D { env with quoteRead := KvReadResult.missing,
                                          historyRead := KvReadResult.missing }) ∧
    (∀ q d ct, env.weekendRead = KvReadResult.storeError →
      env.quoteRead = KvReadResult.storeError →
      env.historyRead = KvReadResult.storeError →
      env.quoteFetch = Except.ok q →
      env.historyFetch = Except.ok (d, ct) →
      handleGetStockData Q D env = StockResponse.success q d) := by
  rcases env with ⟨td, tf, wr, qr, hr, qf, hf, qw2, hw2⟩
  refine ⟨?_, ?_, ?_, ?_, ?_⟩
  · intro qw hw
    rfl
  · intro h
    subst h
    simp only [handleGetStockData]
    cases hwk : (if dayOfWeek td = 0 ∨ dayOfWeek td = 6 then kvValue D wr else none) with
    | none => rfl
    | some hh => rfl
  · intro h
    subst h
    rfl
  · intro h hwkn
    subst h
    simp only [handleGetStockData] at hwkn ⊢
    rw [hwkn]
    cases qr <;> rfl
  · intro q d ct h1 h2 h3 h4 h5
    subst h1
    subst h2
    subst h3
    subst h4
    subst h5
    by_cases hc : dayOfWeek td = 0 ∨ dayOfWeek td = 6 <;>
      simp [handleGetStockData, historyPhase, kvValue, hc]

/-- C8 witness: with every cache access failing and both live fetches
succeeding on a Thursday, the response equals the double-miss response and
is the fresh 200. -/
theorem C8_cache_store_failures_never_surfaced_witness :
    handleGetStockData Nat Nat envAllCacheDown =
      handleGetStockData Nat Nat
        { envAllCacheDown with quoteRead := KvReadResult.missing,
                               historyRead := KvReadResult.missing } ∧
    handleGetStockData Nat Nat envAllCacheDown = StockResponse.success 5 7 :=
  ⟨(C8_cache_store_failures_never_surfaced Nat Nat envAllCacheDown).2.1 rfl,
   (C8_cache_store_failures_never_surfaced Nat Nat envAllCacheDown).2.2.2.2 5 7 100
     rfl rfl rfl rfl rfl⟩
